import Mathlib

/-!
Verification of the loop_unwrap crate (src/src/lib.rs): three declarative
macro families (unwrap_continue, unwrap_break, unwrap_break_err), each a
pattern-matcher over five call shapes, plus the ToOption trait with its two
implementations.  The embedding models each macro arm as a function from the
(already parsed) argument shape and the value-source to the event trace the
expanded code produces, with explicit state threading for the value-source
and message expressions so that evaluation counts are observable.  A small
fueled semantics of Rust labeled loops interprets the emitted control events.
-/

namespace LoopUnwrap

/-- Loop labels of the host language (Rust lifetimes used as loop labels). -/
abbrev Label := Nat

/-- Rust's Result enum, as matched by the macros in lib.rs. -/
inductive RResult (T E : Type) where
  | Ok (v : T)
  | Err (e : E)
deriving DecidableEq

/-- Implementation of ToOption for Option (lib.rs lines 245-249): returns self. -/
def optionToOption {T : Type} (o : Option T) : Option T :=
  o

/-- Implementation of ToOption for Result (lib.rs lines 251-258): Ok v maps to
some v, Err discards the payload and maps to none. -/
def resultToOption {T U : Type} : RResult T U → Option T
  | .Ok v => some v
  | .Err _ => none

/-- A value of one of the two container types the ToOption trait is
implemented for: an Option or a Result. -/
inductive ContVal (α ε : Type) where
  | ofOption (o : Option α)
  | ofResult (r : RResult α ε)
deriving DecidableEq

/-- Dispatch of the to_option trait method over the two implementations. -/
def ContVal.to_option {α ε : Type} : ContVal α ε → Option α
  | .ofOption o => optionToOption o
  | .ofResult r => resultToOption r

/-- The five call shapes accepted by each macro family, in the order the
macro_rules arms appear in lib.rs: (value), (value, label),
(value, label, message), (value, message), (value, message, label).
The message slot has type m so the same shape type serves both the pure
description (m a plain value) and the effectful one (m a state thunk). -/
inductive Args (m : Type) where
  | justVal
  | withLabel (l : Label)
  | withLabelMsg (l : Label) (msg : m)
  | withMsg (msg : m)
  | withMsgLabel (msg : m) (l : Label)
deriving DecidableEq

/-- Label supplied by a call shape, if any. -/
def Args.label? {m : Type} : Args m → Option Label
  | .justVal => none
  | .withLabel l => some l
  | .withLabelMsg l _ => some l
  | .withMsg _ => none
  | .withMsgLabel _ l => some l

/-- Message supplied by a call shape, if any. -/
def Args.msg? {m : Type} : Args m → Option m
  | .justVal => none
  | .withLabel _ => none
  | .withLabelMsg _ msg => some msg
  | .withMsg msg => some msg
  | .withMsgLabel msg _ => some msg

/-- Events the expanded code can perform, in order: evaluate to the inner
value (the present path), print a message line to the diagnostic sink
(println!), resume a loop (continue, with optional label), or exit a loop
(break, with optional label and optional break value). -/
inductive Ev (α γ μ : Type) where
  | yield (v : α)
  | print (m : μ)
  | cont (l : Option Label)
  | brk (l : Option Label) (w : Option γ)
deriving DecidableEq

/-- Expansion of unwrap_continue (lib.rs lines 41-88).  The value-source is an
effectful thunk over state σ, evaluated first (once) as the match scrutinee
of the expanded code; the message, when the shape carries one, is an effectful
thunk evaluated only inside the None arm, just before the continue.  Each of
the five branches transcribes the corresponding macro_rules arm. -/
def unwrap_continue {σ α ε γ μ : Type} (xe : σ → σ × ContVal α ε)
    (a : Args (σ → σ × μ)) (s : σ) : σ × List (Ev α γ μ) :=
  match xe s with
  | (s1, x) =>
    match a with
    | .justVal =>
      match x.to_option with
      | some v => (s1, [.yield v])
      | none => (s1, [.cont none])
    | .withLabel l =>
      match x.to_option with
      | some v => (s1, [.yield v])
      | none => (s1, [.cont (some l)])
    | .withLabelMsg l me =>
      match x.to_option with
      | some v => (s1, [.yield v])
      | none =>
        match me s1 with
        | (s2, msg) => (s2, [.print msg, .cont (some l)])
    | .withMsg me =>
      match x.to_option with
      | some v => (s1, [.yield v])
      | none =>
        match me s1 with
        | (s2, msg) => (s2, [.print msg, .cont none])
    | .withMsgLabel me l =>
      match x.to_option with
      | some v => (s1, [.yield v])
      | none =>
        match me s1 with
        | (s2, msg) => (s2, [.print msg, .cont (some l)])

/-- Expansion of unwrap_break (lib.rs lines 127-171): identical matching
structure to unwrap_continue, with break (no break value) instead of
continue in every None arm. -/
def unwrap_break {σ α ε γ μ : Type} (xe : σ → σ × ContVal α ε)
    (a : Args (σ → σ × μ)) (s : σ) : σ × List (Ev α γ μ) :=
  match xe s with
  | (s1, x) =>
    match a with
    | .justVal =>
      match x.to_option with
      | some v => (s1, [.yield v])
      | none => (s1, [.brk none none])
    | .withLabel l =>
      match x.to_option with
      | some v => (s1, [.yield v])
      | none => (s1, [.brk (some l) none])
    | .withLabelMsg l me =>
      match x.to_option with
      | some v => (s1, [.yield v])
      | none =>
        match me s1 with
        | (s2, msg) => (s2, [.print msg, .brk (some l) none])
    | .withMsg me =>
      match x.to_option with
      | some v => (s1, [.yield v])
      | none =>
        match me s1 with
        | (s2, msg) => (s2, [.print msg, .brk none none])
    | .withMsgLabel me l =>
      match x.to_option with
      | some v => (s1, [.yield v])
      | none =>
        match me s1 with
        | (s2, msg) => (s2, [.print msg, .brk (some l) none])

/-- Expansion of unwrap_break_err (lib.rs lines 195-239): the scrutinee is
matched directly against the Ok and Err constructors of Result (no to_option
call), and the Err arm breaks with the value Err(e), re-surfacing the original
failure payload unchanged.  The break value type is RResult β ε for whatever
value type β the enclosing loop breaks with on its other paths. -/
def unwrap_break_err {σ α ε β μ : Type} (xe : σ → σ × RResult α ε)
    (a : Args (σ → σ × μ)) (s : σ) : σ × List (Ev α (RResult β ε) μ) :=
  match xe s with
  | (s1, x) =>
    match a with
    | .justVal =>
      match x with
      | .Ok v => (s1, [.yield v])
      | .Err e => (s1, [.brk none (some (.Err e))])
    | .withLabel l =>
      match x with
      | .Ok v => (s1, [.yield v])
      | .Err e => (s1, [.brk (some l) (some (.Err e))])
    | .withLabelMsg l me =>
      match x with
      | .Ok v => (s1, [.yield v])
      | .Err e =>
        match me s1 with
        | (s2, msg) => (s2, [.print msg, .brk (some l) (some (.Err e))])
    | .withMsg me =>
      match x with
      | .Ok v => (s1, [.yield v])
      | .Err e =>
        match me s1 with
        | (s2, msg) => (s2, [.print msg, .brk none (some (.Err e))])
    | .withMsgLabel me l =>
      match x with
      | .Ok v => (s1, [.yield v])
      | .Err e =>
        match me s1 with
        | (s2, msg) => (s2, [.print msg, .brk (some l) (some (.Err e))])

/-- Lift a pure call shape to the effectful one: the message expression is a
thunk with no state effect. -/
def Args.pureLift {σ μ : Type} : Args μ → Args (σ → σ × μ)
  | .justVal => .justVal
  | .withLabel l => .withLabel l
  | .withLabelMsg l msg => .withLabelMsg l (fun s => (s, msg))
  | .withMsg msg => .withMsg (fun s => (s, msg))
  | .withMsgLabel msg l => .withMsgLabel (fun s => (s, msg)) l

/-- Trace of unwrap_continue on an already evaluated value-source and a pure
call shape. -/
def unwrap_continue_tr {α ε γ μ : Type} (x : ContVal α ε) (a : Args μ) :
    List (Ev α γ μ) :=
  (unwrap_continue (fun s => (s, x)) a.pureLift ()).2

/-- Trace of unwrap_break on an already evaluated value-source and a pure
call shape. -/
def unwrap_break_tr {α ε γ μ : Type} (x : ContVal α ε) (a : Args μ) :
    List (Ev α γ μ) :=
  (unwrap_break (fun s => (s, x)) a.pureLift ()).2

/-- Trace of unwrap_break_err on an already evaluated value-source and a pure
call shape. -/
def unwrap_break_err_tr {α ε β μ : Type} (x : RResult α ε) (a : Args μ) :
    List (Ev α (RResult β ε) μ) :=
  (unwrap_break_err (fun s => (s, x)) a.pureLift ()).2

/-- Messages printed along a trace, in order. -/
def printsOf {α γ μ : Type} : List (Ev α γ μ) → List μ
  | [] => []
  | .print m :: t => m :: printsOf t
  | _ :: t => printsOf t

/-- Whether an event is a loop escape (continue or break). -/
def Ev.isEscape {α γ μ : Type} : Ev α γ μ → Bool
  | .cont _ => true
  | .brk _ _ => true
  | _ => false

/-- Control outcome of running one loop-body iteration of the host program:
the body finished normally (ret, the loop iterates again), or it requested a
continue or a break, each optionally labeled, a break optionally carrying a
value (none stands for the unit value of a plain break). -/
inductive BodyOut (γ : Type) where
  | ret
  | cont (l : Option Label)
  | brk (l : Option Label) (w : Option γ)
deriving DecidableEq

/-- Result of running a Rust loop expression under fuel: the loop evaluated
to a break value, or an escape aimed at an outer labeled loop propagated past
it, or the fuel ran out (the loop did not terminate within the budget). -/
inductive LoopRes (γ σ : Type) where
  | val (s : σ) (w : Option γ)
  | sig (s : σ) (b : BodyOut γ)
  | timeout
deriving DecidableEq

/-- Fueled semantics of a Rust loop, possibly bearing a label.  An unlabeled
continue or one naming this loop starts the next iteration; an unlabeled
break or one naming this loop ends the loop with the break value; an escape
naming a different label propagates outward unchanged, as Rust labeled
control flow does. -/
def runLoop {γ σ : Type} (myLbl : Option Label) (body : σ → σ × BodyOut γ) :
    Nat → σ → LoopRes γ σ
  | 0, _ => .timeout
  | fuel + 1, s =>
    match body s with
    | (s1, .ret) => runLoop myLbl body fuel s1
    | (s1, .cont none) => runLoop myLbl body fuel s1
    | (s1, .cont (some l)) =>
      if some l = myLbl then runLoop myLbl body fuel s1
      else .sig s1 (.cont (some l))
    | (s1, .brk none w) => .val s1 w
    | (s1, .brk (some l) w) =>
      if some l = myLbl then .val s1 w
      else .sig s1 (.brk (some l) w)

/-- Interpretation of a macro-expansion trace as one step of host code around
the call site: a yield hands the inner value to the continuation k (the code
following the macro call in the loop body), a print applies the diagnostic
sink effect out to the state and goes on, and a control event becomes the
body outcome. -/
def interpTr {σ α γ μ : Type} (k : α → σ → σ × BodyOut γ) (out : μ → σ → σ) :
    List (Ev α γ μ) → σ → σ × BodyOut γ
  | [], s => (s, .ret)
  | .yield v :: _, s => k v s
  | .print m :: rest, s => interpTr k out rest (out m s)
  | .cont l :: _, s => (s, .cont l)
  | .brk l w :: _, s => (s, .brk l w)

/-- Syntactic fragment kinds a macro call argument can have at the call site:
an expression, or a lifetime (Rust loop label).  A lone lifetime token is not
an expression, so the expr and lifetime fragment specifiers of macro_rules
match disjoint argument forms. -/
inductive Frag where
  | exprF
  | lifeF
deriving DecidableEq

/-- The five macro_rules arms shared by all three families, identified by
their argument pattern: value; value, label; value, label, message;
value, message; value, message, label. -/
inductive ShapeK where
  | v
  | vl
  | vlm
  | vm
  | vml
deriving DecidableEq

/-- Arm selection of the macro expander (every family has the same five
argument patterns): the comma-separated argument fragments are matched
against the arms in source order, and a call matching no arm is a
macro-expansion error, modeled as none. -/
def matchArms : List Frag → Option ShapeK
  | [.exprF] => some .v
  | [.exprF, .lifeF] => some .vl
  | [.exprF, .lifeF, .exprF] => some .vlm
  | [.exprF, .exprF] => some .vm
  | [.exprF, .exprF, .lifeF] => some .vml
  | _ => none

/-- Runtime-value constructors of the two container enums of the Rust
standard library that ToOption is implemented for. -/
inductive Ctor where
  | SomeC
  | NoneC
  | OkC
  | ErrC
deriving DecidableEq, BEq

/-- The two container types, at the type level. -/
inductive ContKind where
  | optionK
  | resultK
deriving DecidableEq

/-- Constructors belonging to each container type. -/
def ctorsOf : ContKind → List Ctor
  | .optionK => [.SomeC, .NoneC]
  | .resultK => [.OkC, .ErrC]

/-- Constructor patterns appearing in the match emitted by every
unwrap_break_err arm (lib.rs lines 195-239): Ok(v) and Err(e). -/
def breakErrPatterns : List Ctor :=
  [.OkC, .ErrC]

/-- Whether the match emitted by unwrap_break_err type-checks against a
scrutinee of the given container type: every constructor pattern must be a
constructor of that type, as Rust requires at compile time. -/
def breakErrTypeChecks (k : ContKind) : Bool :=
  breakErrPatterns.all (fun c => (ctorsOf k).contains c)

/-- Instrumented call shape for counting evaluations: each message
expression, when evaluated, bumps the second component of a pair of
counters (the first component counts value-source evaluations). -/
def countMsg {μ : Type} : Args μ → Args (Nat × Nat → (Nat × Nat) × μ)
  | .justVal => .justVal
  | .withLabel l => .withLabel l
  | .withLabelMsg l m => .withLabelMsg l (fun s => ((s.1, s.2 + 1), m))
  | .withMsg m => .withMsg (fun s => ((s.1, s.2 + 1), m))
  | .withMsgLabel m l => .withMsgLabel (fun s => ((s.1, s.2 + 1), m)) l

/-- Claim C5: the ToOption normalization is a total function on both
container variants (totality and absence of effects hold by construction in
the embedding, mirroring the effect-free Rust bodies), acts as the identity
on Option, and maps Ok v to some v and Err e to none, discarding the error
payload. -/
theorem to_option_total_and_faithful :
    (∀ (α : Type) (o : Option α), optionToOption o = o) ∧
    (∀ (α ε : Type) (v : α), resultToOption (.Ok v : RResult α ε) = some v) ∧
    (∀ (α ε : Type) (e : ε), resultToOption (.Err e : RResult α ε) = none) ∧
    (∀ (α ε : Type) (o : Option α),
      ContVal.to_option (ε := ε) (.ofOption o) = o) ∧
    (∀ (α ε : Type) (v : α),
      ContVal.to_option (.ofResult (.Ok v) : ContVal α ε) = some v) ∧
    (∀ (α ε : Type) (e : ε),
      ContVal.to_option (.ofResult (.Err e) : ContVal α ε) = none) := by
  exact ⟨fun _ _ => rfl, fun _ _ _ => rfl, fun _ _ _ => rfl,
    fun _ _ _ => rfl, fun _ _ _ => rfl, fun _ _ _ => rfl⟩

/-- Claim C6: the expander accepts exactly the five call shapes (value),
(value, label), (value, label, message), (value, message),
(value, message, label); every other arity or ordering of argument
fragments fails to match any arm and is a macro-expansion (compile-time)
error. -/
theorem matchArms_exactly_five_shapes (ts : List Frag) :
    (matchArms ts).isSome ↔
      ts ∈ [[Frag.exprF], [Frag.exprF, Frag.lifeF],
            [Frag.exprF, Frag.lifeF, Frag.exprF],
            [Frag.exprF, Frag.exprF], [Frag.exprF, Frag.exprF, Frag.lifeF]] := by
  rcases ts with _ | ⟨a, _ | ⟨b, _ | ⟨c, _ | ⟨d, r⟩⟩⟩⟩
  · simp [matchArms]
  · cases a <;> simp [matchArms]
  · cases a <;> cases b <;> simp [matchArms]
  · cases a <;> cases b <;> cases c <;> simp [matchArms]
  · cases a <;> cases b <;> cases c <;> cases d <;> simp [matchArms]

/-- Claim C8: the match emitted by unwrap_break_err, whose patterns are the
Ok and Err constructors, type-checks against a Result scrutinee and fails to
type-check against an Option scrutinee (whose constructors are Some and
None), so applying that family to an Option input is rejected at compile
time rather than at runtime. -/
theorem breakErr_requires_result :
    breakErrTypeChecks .resultK = true ∧ breakErrTypeChecks .optionK = false := by
  exact ⟨rfl, rfl⟩

/-- Claim C1: for every present-state input (Option holding a value, or Ok
of a Result) and every one of the five call shapes, each macro family
evaluates to exactly the contained inner value: its trace is the single
yield event, so no continue, no break, and no diagnostic write occurs. -/
theorem present_input_yields_inner_value (α ε γ β μ : Type) (v : α)
    (a : Args μ) :
    unwrap_continue_tr (γ := γ) (.ofOption (some v) : ContVal α ε) a
      = [Ev.yield v] ∧
    unwrap_continue_tr (γ := γ) (.ofResult (.Ok v) : ContVal α ε) a
      = [Ev.yield v] ∧
    unwrap_break_tr (γ := γ) (.ofOption (some v) : ContVal α ε) a
      = [Ev.yield v] ∧
    unwrap_break_tr (γ := γ) (.ofResult (.Ok v) : ContVal α ε) a
      = [Ev.yield v] ∧
    unwrap_break_err_tr (β := β) (.Ok v : RResult α ε) a
      = [Ev.yield v] := by
  cases a <;> exact ⟨rfl, rfl, rfl, rfl, rfl⟩

/-- Claim C3: for every family, the two three-argument call shapes
(value, label, message) and (value, message, label) expand to code with
identical behavior: for arbitrary effectful value-source and message
expressions and an arbitrary start state, the final state and the full
event trace (result value, escape action and its target, diagnostic
output) coincide. -/
theorem three_arg_orders_equivalent (σ α ε γ β μ : Type)
    (xe : σ → σ × ContVal α ε) (re : σ → σ × RResult α ε)
    (l : Label) (me : σ → σ × μ) (s : σ) :
    unwrap_continue (γ := γ) xe (.withLabelMsg l me) s
      = unwrap_continue xe (.withMsgLabel me l) s ∧
    unwrap_break (γ := γ) xe (.withLabelMsg l me) s
      = unwrap_break xe (.withMsgLabel me l) s ∧
    unwrap_break_err (β := β) re (.withLabelMsg l me) s
      = unwrap_break_err re (.withMsgLabel me l) s := by
  refine ⟨?_, ?_, ?_⟩
  · rcases hx : xe s with ⟨s1, x⟩
    rcases ho : x.to_option with _ | v <;>
      simp [unwrap_continue, hx, ho]
  · rcases hx : xe s with ⟨s1, x⟩
    rcases ho : x.to_option with _ | v <;>
      simp [unwrap_break, hx, ho]
  · rcases hr : re s with ⟨s1, x⟩
    rcases x with v | e <;>
      simp [unwrap_break_err, hr]

/-- Claim C4: in every family, a diagnostic line is written iff a message was
supplied and the input is absent (or a failure); when written it is written
exactly once, strictly after detecting absence and strictly before the
escape event, and never on the present path: the absent-with-message trace
is exactly the print event followed by the escape event, and the traces of
the present path and of the absent-without-message path contain no print. -/
theorem message_written_iff_absent_and_supplied (α ε γ β μ : Type)
    (x : ContVal α ε) (r : RResult α ε) (a : Args μ) :
    (∀ v : α, x.to_option = some v →
      printsOf (unwrap_continue_tr (γ := γ) x a) = [] ∧
      printsOf (unwrap_break_tr (γ := γ) x a) = []) ∧
    (∀ v : α, r = .Ok v →
      printsOf (unwrap_break_err_tr (β := β) r a) = []) ∧
    (x.to_option = none → a.msg? = none →
      printsOf (unwrap_continue_tr (γ := γ) x a) = [] ∧
      printsOf (unwrap_break_tr (γ := γ) x a) = []) ∧
    (∀ e : ε, r = .Err e → a.msg? = none →
      printsOf (unwrap_break_err_tr (β := β) r a) = []) ∧
    (∀ m : μ, x.to_option = none → a.msg? = some m →
      unwrap_continue_tr (γ := γ) x a = [.print m, .cont a.label?] ∧
      unwrap_break_tr (γ := γ) x a = [.print m, .brk a.label? none]) ∧
    (∀ (e : ε) (m : μ), r = .Err e → a.msg? = some m →
      unwrap_break_err_tr (β := β) r a
        = [.print m, .brk a.label? (some (.Err e))]) := by
  refine ⟨?_, ?_, ?_, ?_, ?_, ?_⟩
  · intro v hv
    cases a <;>
      simp [unwrap_continue_tr, unwrap_break_tr, unwrap_continue,
        unwrap_break, Args.pureLift, hv, printsOf]
  · rintro v rfl
    cases a <;>
      simp [unwrap_break_err_tr, unwrap_break_err, Args.pureLift, printsOf]
  · intro hv hm
    cases a <;> simp [Args.msg?] at hm <;>
      simp [unwrap_continue_tr, unwrap_break_tr, unwrap_continue,
        unwrap_break, Args.pureLift, hv, printsOf]
  · rintro e rfl hm
    cases a <;> simp [Args.msg?] at hm <;>
      simp [unwrap_break_err_tr, unwrap_break_err, Args.pureLift, printsOf]
  · intro m hv hm
    cases a <;> simp [Args.msg?] at hm <;>
      simp [unwrap_continue_tr, unwrap_break_tr, unwrap_continue,
        unwrap_break, Args.pureLift, hv, hm, Args.label?]
  · rintro e m rfl hm
    cases a <;> simp [Args.msg?] at hm <;>
      simp [unwrap_break_err_tr, unwrap_break_err, Args.pureLift, hm,
        Args.label?]

/-- Concrete instantiation of the message-writing discipline: the
with-message shape on a present Option prints nothing, on an absent Option
prints the message once right before the continue, and on a failing Result
prints it once right before the propagating break. -/
theorem message_written_iff_witness :
    printsOf (unwrap_continue_tr (γ := Nat)
      (.ofOption (some 3) : ContVal Nat Nat) (.withMsg (5 : Nat))) = [] ∧
    unwrap_continue_tr (γ := Nat) (.ofOption none : ContVal Nat Nat)
      (.withMsg (5 : Nat)) = [.print 5, .cont none] ∧
    unwrap_break_err_tr (β := Nat) (.Err 7 : RResult Nat Nat)
      (.withMsg (5 : Nat)) = [.print 5, .brk none (some (.Err 7))] := by
  refine ⟨?_, ?_, ?_⟩
  · exact ((message_written_iff_absent_and_supplied Nat Nat Nat Nat Nat
      (.ofOption (some 3)) (.Err 7) (.withMsg 5)).1 3 rfl).1
  · exact ((message_written_iff_absent_and_supplied Nat Nat Nat Nat Nat
      (.ofOption none) (.Err 7) (.withMsg 5)).2.2.2.2.1 5 rfl rfl).1
  · exact (message_written_iff_absent_and_supplied Nat Nat Nat Nat Nat
      (.ofOption none) (.Err 7) (.withMsg 5)).2.2.2.2.2 7 5 rfl rfl

/-- Claim C2: for unwrap_break_err on a failure input Err e, under any of the
five call shapes, the enclosing loop (bearing the shape's label when one is
given, unlabeled otherwise) finishes with final evaluation result Err e
exactly: the original payload, not re-wrapped and not translated, whatever
the success continuation k would have done and whatever value type the loop
otherwise breaks with.  The state collects diagnostic-sink output. -/
theorem break_err_loop_result_is_original_error (α ε β μ : Type)
    (k : α → List μ → List μ × BodyOut (RResult β ε)) (e : ε) (a : Args μ)
    (fuel : Nat) (s : List μ) :
    runLoop a.label?
      (interpTr k (fun m s => s ++ [m])
        (unwrap_break_err_tr (β := β) (.Err e : RResult α ε) a))
      (fuel + 1) s
      = .val (s ++ printsOf (unwrap_break_err_tr (β := β)
            (.Err e : RResult α ε) a))
          (some (.Err e)) := by
  cases a <;>
    simp [unwrap_break_err_tr, unwrap_break_err, Args.pureLift, runLoop,
      interpTr, printsOf, Args.label?]

/-- Claim C9: in every family and every call shape, the value-source
expression is evaluated exactly once per invocation: with the value-source
instrumented to bump the first counter and every message expression
instrumented to bump the second, the first counter always ends exactly one
above its start, whatever (state-dependent) container value the source
produces. -/
theorem value_source_evaluated_exactly_once (α ε β μ : Type)
    (f : Nat × Nat → ContVal α ε) (g : Nat × Nat → RResult α ε)
    (a : Args μ) (s : Nat × Nat) :
    ((unwrap_continue (γ := Unit) (fun s => ((s.1 + 1, s.2), f s))
        (countMsg a) s).1).1 = s.1 + 1 ∧
    ((unwrap_break (γ := Unit) (fun s => ((s.1 + 1, s.2), f s))
        (countMsg a) s).1).1 = s.1 + 1 ∧
    ((unwrap_break_err (β := β) (fun s => ((s.1 + 1, s.2), g s))
        (countMsg a) s).1).1 = s.1 + 1 := by
    refine ⟨?_, ?_, ?_⟩
    · cases a <;> rcases ho : (f s).to_option with _ | v <;>
        simp [unwrap_continue, countMsg, ho]
    · cases a <;> rcases ho : (f s).to_option with _ | v <;>
        simp [unwrap_break, countMsg, ho]
    · cases a <;> rcases hg : g s with v | e2 <;>
        simp [unwrap_break_err, countMsg, hg]

/-- Claim C10: in every family and every call shape, the message expression
is evaluated only on the absent path: when the input is present, the
instrumented message counter is unchanged, so none of the message
expression's effects occur. -/
theorem message_not_evaluated_on_present_path (α ε β μ : Type)
    (f : Nat × Nat → ContVal α ε) (g : Nat × Nat → RResult α ε)
    (a : Args μ) (s : Nat × Nat) :
    (∀ v : α, (f s).to_option = some v →
      ((unwrap_continue (γ := Unit) (fun s => ((s.1 + 1, s.2), f s))
          (countMsg a) s).1).2 = s.2 ∧
      ((unwrap_break (γ := Unit) (fun s => ((s.1 + 1, s.2), f s))
          (countMsg a) s).1).2 = s.2) ∧
    (∀ v : α, g s = .Ok v →
      ((unwrap_break_err (β := β) (fun s => ((s.1 + 1, s.2), g s))
          (countMsg a) s).1).2 = s.2) := by
  constructor
  · intro v hv
    cases a <;>
      simp [unwrap_continue, unwrap_break, countMsg, hv]
  · rintro v hv
    cases a <;>
      simp [unwrap_break_err, countMsg, hv]

/-- Concrete instantiation of the lazy-message property: with a present
Option and the three-argument shape, the message counter stays at zero for
the skip family, the exit family, and for the propagating family on Ok. -/
theorem message_not_evaluated_witness :
    ((unwrap_continue (γ := Unit)
        (fun s => ((s.1 + 1, s.2), (.ofOption (some 4) : ContVal Nat Nat)))
        (countMsg (.withLabelMsg 2 (9 : Nat))) (0, 0)).1).2 = 0 ∧
    ((unwrap_break (γ := Unit)
        (fun s => ((s.1 + 1, s.2), (.ofOption (some 4) : ContVal Nat Nat)))
        (countMsg (.withLabelMsg 2 (9 : Nat))) (0, 0)).1).2 = 0 ∧
    ((unwrap_break_err (β := Nat)
        (fun s => ((s.1 + 1, s.2), (.Ok 4 : RResult Nat Nat)))
        (countMsg (.withLabelMsg 2 (9 : Nat))) (0, 0)).1).2 = 0 := by
  refine ⟨?_, ?_, ?_⟩
  · exact ((message_not_evaluated_on_present_path Nat Nat Nat Nat
      (fun _ => .ofOption (some 4)) (fun _ => .Ok 4)
      (.withLabelMsg 2 9) (0, 0)).1 4 rfl).1
  · exact ((message_not_evaluated_on_present_path Nat Nat Nat Nat
      (fun _ => .ofOption (some 4)) (fun _ => .Ok 4)
      (.withLabelMsg 2 9) (0, 0)).1 4 rfl).2
  · exact (message_not_evaluated_on_present_path Nat Nat Nat Nat
      (fun _ => .ofOption (some 4)) (fun _ => .Ok 4)
      (.withLabelMsg 2 9) (0, 0)).2 4 rfl

/-- Inner-loop body of the nested label-targeting scenario: the body invokes
the macro (its expansion trace t); if the macro yields a value, the line
after the macro call runs, bumping the first counter, and the inner loop
breaks normally.  The diagnostic sink is ignored here.  The state is a pair
of counters: lines executed after the macro call in the inner body, and
lines executed after the inner loop in the outer body. -/
def innerBody {α γ μ : Type} (t : List (Ev α γ μ)) :
    Nat × Nat → (Nat × Nat) × BodyOut γ :=
  fun s =>
    interpTr (fun _v s => ((s.1 + 1, s.2), .brk none none))
      (fun _m s => s) t s

/-- Outer-loop body of the nested label-targeting scenario: it runs the
unlabeled inner loop; if the inner loop finishes normally, the line after it
runs, bumping the second counter, and the outer body finishes (the outer
loop iterates again); an escape propagating out of the inner loop becomes
the outer body's own outcome, as in Rust.  The timeout branch is filler
never reached in the scenario. -/
def outerBody {α γ μ : Type} (t : List (Ev α γ μ)) (iFuel : Nat) :
    Nat × Nat → (Nat × Nat) × BodyOut γ :=
  fun s =>
    match runLoop none (innerBody t) iFuel s with
    | .val s1 _ => ((s1.1, s1.2 + 1), .ret)
    | .sig s1 b => (s1, b)
    | .timeout => (s, .brk none none)

/-- Helper for the continue-targeting case: a labeled loop whose body always
requests a continue of that same label from an unchanged state runs forever
(exhausts any fuel). -/
theorem runLoop_self_cont_timeout {γ σ : Type} (L : Label)
    (body : σ → σ × BodyOut γ) (s : σ)
    (h : body s = (s, .cont (some L))) :
    ∀ f, runLoop (some L) body f s = .timeout := by
  intro f
  induction f with
  | zero => rfl
  | succ n ih => simp [runLoop, h, ih]

/-- Claim C7: with nested loops where only the outer loop bears label L,
invoking any of the three families with label L from the inner loop on an
absent input targets the outer loop, not the inner one.  The inner unlabeled
loop does not handle the escape but propagates it outward, with the line
after the macro call never executed; the outer loop then handles it as its
own: the continue family restarts the outer loop forever, the break family
exits the outer loop, and the propagating family exits it with result
Err e, in every case with the line after the inner loop never executed
(the counter state s0 unchanged). -/
theorem label_targets_outer_loop (α ε β μ : Type) (L : Label) (a : Args μ)
    (x : ContVal α ε) (e : ε) (iF oF : Nat) (s0 : Nat × Nat)
    (hL : a.label? = some L) (hx : x.to_option = none) :
    (runLoop none (innerBody (unwrap_continue_tr (γ := Unit) x a))
        (iF + 1) s0 = .sig s0 (.cont (some L))) ∧
    (runLoop none (innerBody (unwrap_break_tr (γ := Unit) x a))
        (iF + 1) s0 = .sig s0 (.brk (some L) none)) ∧
    (runLoop none (innerBody (unwrap_break_err_tr (β := β)
          (.Err e : RResult α ε) a))
        (iF + 1) s0 = .sig s0 (.brk (some L) (some (.Err e)))) ∧
    (∀ f, runLoop (some L)
        (outerBody (unwrap_continue_tr (γ := Unit) x a) (iF + 1)) f s0
        = .timeout) ∧
    (runLoop (some L)
        (outerBody (unwrap_break_tr (γ := Unit) x a) (iF + 1)) (oF + 1)
        s0 = .val s0 none) ∧
    (runLoop (some L)
        (outerBody (unwrap_break_err_tr (β := β) (.Err e : RResult α ε) a)
          (iF + 1)) (oF + 1) s0 = .val s0 (some (.Err e))) := by
  have hic : ∀ s : Nat × Nat,
      innerBody (unwrap_continue_tr (γ := Unit) x a) s
        = (s, .cont (some L)) := by
    intro s
    cases a <;> simp [Args.label?] at hL <;>
      simp [innerBody, interpTr, unwrap_continue_tr, unwrap_continue,
        Args.pureLift, hx, hL]
  have hib : ∀ s : Nat × Nat,
      innerBody (unwrap_break_tr (γ := Unit) x a) s
        = (s, .brk (some L) none) := by
    intro s
    cases a <;> simp [Args.label?] at hL <;>
      simp [innerBody, interpTr, unwrap_break_tr, unwrap_break,
        Args.pureLift, hx, hL]
  have hie : ∀ s : Nat × Nat,
      innerBody (unwrap_break_err_tr (β := β) (.Err e : RResult α ε) a) s
        = (s, .brk (some L) (some (.Err e))) := by
    intro s
    cases a <;> simp [Args.label?] at hL <;>
      simp [innerBody, interpTr, unwrap_break_err_tr, unwrap_break_err,
        Args.pureLift, hL]
  have h1 : ∀ s : Nat × Nat,
      runLoop none (innerBody (unwrap_continue_tr (γ := Unit) x a))
        (iF + 1) s = .sig s (.cont (some L)) := by
    intro s; simp [runLoop, hic]
  have h2 : ∀ s : Nat × Nat,
      runLoop none (innerBody (unwrap_break_tr (γ := Unit) x a))
        (iF + 1) s = .sig s (.brk (some L) none) := by
    intro s; simp [runLoop, hib]
  have h3 : ∀ s : Nat × Nat,
      runLoop none (innerBody (unwrap_break_err_tr (β := β)
          (.Err e : RResult α ε) a)) (iF + 1) s
        = .sig s (.brk (some L) (some (.Err e))) := by
    intro s; simp [runLoop, hie]
  refine ⟨h1 s0, h2 s0, h3 s0, ?_, ?_, ?_⟩
  · exact runLoop_self_cont_timeout L _ s0 (by simp [outerBody, h1])
  · have ho : outerBody (unwrap_break_tr (γ := Unit) x a) (iF + 1) s0
        = (s0, .brk (some L) none) := by
      simp [outerBody, h2]
    simp [runLoop, ho]
  · have ho : outerBody (unwrap_break_err_tr (β := β)
          (.Err e : RResult α ε) a) (iF + 1) s0
        = (s0, .brk (some L) (some (.Err e))) := by
      simp [outerBody, h3]
    simp [runLoop, ho]

/-- Concrete instantiation of label targeting: label 9 on the outer loop
only, absent Option input (failure input for the propagating family), inner
loop propagates, outer loop continues forever, or exits, or exits with
Err 1, counters untouched. -/
theorem label_targets_outer_loop_witness :
    (runLoop none (innerBody (unwrap_continue_tr (γ := Unit)
        (.ofOption none : ContVal Nat Nat) (.withLabel 9 : Args Nat)))
        1 (3, 4) = .sig (3, 4) (.cont (some 9))) ∧
    (runLoop (some 9) (outerBody (unwrap_continue_tr (γ := Unit)
        (.ofOption none : ContVal Nat Nat) (.withLabel 9 : Args Nat)) 1)
        5 (3, 4) = .timeout) ∧
    (runLoop (some 9) (outerBody (unwrap_break_tr (γ := Unit)
        (.ofOption none : ContVal Nat Nat) (.withLabel 9 : Args Nat)) 1)
        1 (3, 4) = .val (3, 4) none) ∧
    (runLoop (some 9) (outerBody (unwrap_break_err_tr (β := Nat)
        (.Err 1 : RResult Nat Nat) (.withLabel 9 : Args Nat)) 1)
        1 (3, 4) = .val (3, 4) (some (.Err 1))) := by
  refine ⟨?_, ?_, ?_, ?_⟩
  · exact (label_targets_outer_loop Nat Nat Nat Nat 9 (.withLabel 9)
      (.ofOption none) 1 0 0 (3, 4) rfl rfl).1
  · exact (label_targets_outer_loop Nat Nat Nat Nat 9 (.withLabel 9)
      (.ofOption none) 1 0 0 (3, 4) rfl rfl).2.2.2.1 5
  · exact (label_targets_outer_loop Nat Nat Nat Nat 9 (.withLabel 9)
      (.ofOption none) 1 0 0 (3, 4) rfl rfl).2.2.2.2.1
  · exact (label_targets_outer_loop Nat Nat Nat Nat 9 (.withLabel 9)
      (.ofOption none) 1 0 0 (3, 4) rfl rfl).2.2.2.2.2

end LoopUnwrap
